import Mathlib

set_option maxHeartbeats 1000000

/-
Verification of the streaming translation pipeline of the
openai-claude-cli-nodejs proxy.

The development shallowly embeds the JavaScript source:

* `JSVal` models the JSON-like dynamic values flowing through the pipeline
  (objects, arrays, strings, numbers, booleans, `null` and `undefined`).
  Numbers are modelled as integers, which covers every value the claims
  touch; JavaScript property access on `null`/`undefined` raises a
  `TypeError`, modelled with `Except`.
* The text utilities (`filterContent`, the regex replacements and `trim`)
  are implemented over `List Char` with the exact matching discipline of
  the JavaScript regexes used by the source (leftmost match, lazy or greedy
  quantifiers as written, global continuation after each match).  The
  whitespace class is modelled as the ASCII whitespace characters.
* `StreamingResponse` becomes the state record `SR`; the transport itself
  (node's `res`) is not modelled, so `write` is modelled on its success
  path guarded by the `closed` flag, exactly as the claims require.
* `processClaudeStream` becomes a fold over the list of chunks yielded by
  the subprocess iterator, with thrown JavaScript errors modelled by
  `Except`.  Time, randomness and the logger are outside the embedding.
-/

namespace ClaudeProxy

/-- Model of JavaScript/JSON runtime values as they occur in the pipeline.
Numbers are modelled as integers (no claim depends on float behaviour). -/
inductive JSVal where
  | null
  | undef
  | jbool (b : Bool)
  | num (n : Int)
  | str (s : String)
  | arr (elems : List JSVal)
  | obj (fields : List (String × JSVal))

/-- Property lookup `v[key]`: defined (`some`) only on objects with the key;
every other case is JavaScript `undefined` (`none`).  Lookup on `null` or
`undefined` throws in JavaScript; the callers below model that explicitly
before using `getField`. -/
def getField : JSVal → String → Option JSVal
  | .obj fields, key => List.lookup key fields
  | _, _ => none

/-- JavaScript truthiness of a value. -/
def truthy : JSVal → Bool
  | .null => false
  | .undef => false
  | .jbool b => b
  | .num n => decide (n ≠ 0)
  | .str s => decide (s ≠ "")
  | .arr _ => true
  | .obj _ => true

/-- Truthiness of the property `v[key]` (`v.key &&`-style guards). -/
def fieldTruthy (v : JSVal) (key : String) : Bool :=
  match getField v key with
  | some w => truthy w
  | none => false

/-- The test `v.type === t` for a string literal `t`. -/
def typeEq (v : JSVal) (t : String) : Bool :=
  match getField v "type" with
  | some (.str s) => s == t
  | _ => false

def isNullish : JSVal → Bool
  | .null => true
  | .undef => true
  | _ => false

def isUndef : JSVal → Bool
  | .undef => true
  | _ => false

/-- Comma join, the behaviour of JavaScript `Array.prototype.join(",")`. -/
def joinComma : List String → String
  | [] => ""
  | [x] => x
  | x :: xs => x ++ "," ++ joinComma xs

/-- JavaScript string coercion (`String(v)` / `"" + v`): arrays join their
elements with commas, with `null`/`undefined` elements becoming empty, and
plain objects become `[object Object]`. -/
def jsCoerce : JSVal → String
  | .str s => s
  | .num n => toString n
  | .jbool true => "true"
  | .jbool false => "false"
  | .null => "null"
  | .undef => "undefined"
  | .obj _ => "[object Object]"
  | .arr xs =>
    joinComma (xs.attach.map (fun p =>
      if isNullish p.1 then "" else jsCoerce p.1))
decreasing_by
  simp_wf
  have h := List.sizeOf_lt_of_mem p.2
  omega

def hexDigit (n : Nat) : Char :=
  if n < 10 then Char.ofNat (48 + n) else Char.ofNat (87 + n)

/-- Escaping of one character inside a JSON string literal, as
`JSON.stringify` performs it. -/
def jsonEscapeChar (c : Char) : List Char :=
  if c = '"' then ['\\', '"']
  else if c = '\\' then ['\\', '\\']
  else if c = '\n' then ['\\', 'n']
  else if c = '\r' then ['\\', 'r']
  else if c = '\t' then ['\\', 't']
  else if c = '\x08' then ['\\', 'b']
  else if c = '\x0c' then ['\\', 'f']
  else if c.toNat < 32 then
    ['\\', 'u', '0', '0', hexDigit (c.toNat / 16), hexDigit (c.toNat % 16)]
  else [c]

def jsonQuote (s : String) : String :=
  "\"" ++ ((s.toList.map jsonEscapeChar).flatten).asString ++ "\""

/-- Model of `JSON.stringify`: object fields in insertion order,
`undefined` fields dropped, `undefined` array elements serialized as
`null`.  (`JSON.stringify(undefined)` itself has no string result; that
case never occurs in the pipeline and is given the placeholder
`"undefined"`.) -/
def jsonStringify : JSVal → String
  | .null => "null"
  | .undef => "undefined"
  | .jbool true => "true"
  | .jbool false => "false"
  | .num n => toString n
  | .str s => jsonQuote s
  | .arr xs =>
    "[" ++ joinComma (xs.attach.map (fun p =>
      if isUndef p.1 then "null" else jsonStringify p.1)) ++ "]"
  | .obj fs =>
    "\x7b" ++ joinComma ((fs.filter (fun kv => !isUndef kv.2)).attach.map
      (fun p => jsonQuote p.1.1 ++ ":" ++ jsonStringify p.1.2)) ++ "\x7d"
decreasing_by
  all_goals simp_wf
  all_goals try (have h := List.sizeOf_lt_of_mem p.2; omega)
  all_goals
    (rcases p with ⟨⟨k, v⟩, hp⟩;
     have h := List.sizeOf_lt_of_mem (List.mem_of_mem_filter hp);
     simp at h ⊢;
     omega)

/-- ASCII whitespace, the model of the JavaScript `\s` class and of the
characters removed by `String.prototype.trim` (unicode spaces are not
modelled). -/
def wsChar (c : Char) : Bool :=
  c = ' ' || c = '\t' || c = '\n' || c = '\r' || c = '\x0b' || c = '\x0c'

def jsTrimList (l : List Char) : List Char :=
  ((l.dropWhile wsChar).reverse.dropWhile wsChar).reverse

/-- Model of JavaScript `String.prototype.trim`. -/
def jsTrim (s : String) : String := (jsTrimList s.toList).asString

/-- First occurrence of the literal `pat` in `s`: `some (pre, post)` with
`s = pre ++ pat ++ post` at the leftmost occurrence, else `none`. -/
def splitAtSub (pat : List Char) : List Char → Option (List Char × List Char)
  | [] => if pat.isPrefixOf ([] : List Char) then some ([], []) else none
  | c :: cs =>
    if pat.isPrefixOf (c :: cs) then some ([], (c :: cs).drop pat.length)
    else (splitAtSub pat cs).map (fun pq => (c :: pq.1, pq.2))

def containsSub (pat s : List Char) : Bool := (splitAtSub pat s).isSome

/-- One global lazy block removal, the semantics of
`s.replace(/OPEN[\s\S]*?CLOSE/g, "")`: repeatedly find the leftmost
occurrence of the opening literal followed (anywhere later) by the closing
literal, delete through the first such closing literal, and continue after
the match.  The fuel only bounds the number of removals; every removal
consumes at least one character, so `length + 1` steps always suffice. -/
def removeBlocksFuel (opTag closeTag : List Char) : Nat → List Char → List Char
  | 0, s => s
  | fuel + 1, s =>
    match splitAtSub opTag s with
    | none => s
    | some (pre, rest) =>
      match splitAtSub closeTag rest with
      | none => s
      | some (_, post) => pre ++ removeBlocksFuel opTag closeTag fuel post

def removeBlocks (opTag closeTag : List Char) (s : List Char) : List Char :=
  removeBlocksFuel opTag closeTag (s.length + 1) s

/-- Position of the first `]` reachable without crossing a line
terminator, the match extent of the lazy `.*?\]` tail. -/
def findCloseBracket : List Char → Option Nat
  | [] => none
  | c :: cs =>
    if c = ']' then some 0
    else if c = '\n' || c = '\r' then none
    else (findCloseBracket cs).map (fun n => n + 1)

/-- Semantics of `s.replace(/PAT.*?\]/g, "")` for a literal prefix `PAT`:
scan left to right; at each occurrence of `PAT` that is followed by a `]`
with no line terminator in between, delete through that first `]` and
continue after it; occurrences with no such `]` do not match and scanning
resumes one character later.  Fuel as in `removeBlocksFuel`. -/
def removeBracketedFuel (pat : List Char) : Nat → List Char → List Char
  | 0, s => s
  | _ + 1, [] => []
  | fuel + 1, c :: cs =>
    if pat.isPrefixOf (c :: cs) then
      match findCloseBracket ((c :: cs).drop pat.length) with
      | some j => removeBracketedFuel pat fuel ((c :: cs).drop (pat.length + j + 1))
      | none => c :: removeBracketedFuel pat fuel cs
    else c :: removeBracketedFuel pat fuel cs

def removeBracketed (pat : List Char) (s : List Char) : List Char :=
  removeBracketedFuel pat (s.length + 1) s

/-- Index (from the head) of the last newline of `l`, if any. -/
def findLastNl : List Char → Option Nat
  | [] => none
  | c :: cs =>
    match findLastNl cs with
    | some j => some (j + 1)
    | none => if c = '\n' then some 0 else none

/-- Semantics of `s.replace(/\n\s*\n\s*\n/g, "\n\n")`: a match starts at
the first newline whose following whitespace run contains at least three
newlines, and (by greedy backtracking of the two `\s*`) extends exactly to
the last newline of that run; it is replaced by two newlines and scanning
continues after the match. -/
def collapseRunsFuel : Nat → List Char → List Char
  | 0, s => s
  | _ + 1, [] => []
  | fuel + 1, c :: cs =>
    if c = '\n' ∧ 3 ≤ ((c :: cs).takeWhile wsChar).count '\n' then
      match findLastNl ((c :: cs).takeWhile wsChar) with
      | some j => '\n' :: '\n' :: collapseRunsFuel fuel ((c :: cs).drop (j + 1))
      | none => c :: collapseRunsFuel fuel cs
    else c :: collapseRunsFuel fuel cs

def collapseRuns (s : List Char) : List Char :=
  collapseRunsFuel (s.length + 1) s

/-- Opening and closing literals of the removed markup, exactly the bytes
of the source regexes. -/
def fcOpenTag : List Char := "<function_calls>".toList
def fcCloseTag : List Char := "</antml:function_calls>".toList
def thinkOpenTag : List Char := "<thinking>".toList
def thinkCloseTag : List Char := "</antml:thinking>".toList
def toolUsePat : List Char := "[Tool Use:".toList
def filePat : List Char := "[File: ".toList

/-- StreamingManager.filterContent on a string: the four global regex
removals in source order, then newline-run collapsing, then trim.  The
source returns falsy input unchanged, which for strings is exactly the
empty string. -/
def filterContentStr (s : String) : String :=
  if s = "" then s
  else
    let l1 := removeBlocks fcOpenTag fcCloseTag s.toList
    let l2 := removeBlocks thinkOpenTag thinkCloseTag l1
    let l3 := removeBracketed toolUsePat l2
    let l4 := removeBracketed filePat l3
    (jsTrimList (collapseRuns l4)).asString

/-- StreamingManager.filterContent: non-string or falsy input is returned
unchanged (`if (!content || typeof content !== 'string') return content`). -/
def filterContent (content : JSVal) : JSVal :=
  if truthy content = false then content
  else
    match content with
    | .str s => .str (filterContentStr s)
    | v => v

/-- The canonical chunk variants produced by
StreamingManager.parseClaudeChunk / normalizeClaudeChunk. -/
inductive ParsedChunk where
  | assistantMessage (content : JSVal)
  | toolCallsChunk (calls : JSVal)
  | systemChunk (data : JSVal)
  | errorChunk (message : String)
  | emptyChunk
  | unknownChunk (data : JSVal)

/-- Per-block text extraction inside StreamingManager.extractContent:
bare strings verbatim; `null`/`undefined`/numbers/booleans skipped (the
`block && typeof block === 'object'` guard); otherwise the truthy `.text`
field, else the dead duplicate `.type === 'text' && .text` probe kept from
the source, else the truthy `.content` field, each appended through
JavaScript string coercion (`+=`), else nothing. -/
def blockText (b : JSVal) : String :=
  match b with
  | .str s => s
  | .null => ""
  | .undef => ""
  | .num _ => ""
  | .jbool _ => ""
  | _ =>
    if fieldTruthy b "text" then jsCoerce ((getField b "text").getD .undef)
    else if typeEq b "text" && fieldTruthy b "text" then
      jsCoerce ((getField b "text").getD .undef)
    else if fieldTruthy b "content" then
      jsCoerce ((getField b "content").getD .undef)
    else ""

/-- StreamingManager.extractContent: strings verbatim, arrays folded
left-to-right through `blockText`, anything else gives the empty string. -/
def extractContent : JSVal → String
  | .str s => s
  | .arr blocks => blocks.foldl (fun acc b => acc ++ blockText b) ""
  | _ => ""

def isToolUseBlock (b : JSVal) : Bool := typeEq b "tool_use"

/-- TypeError messages raised by property access on `null`/`undefined`. -/
def nullFieldError : String := "Cannot read properties of null"
def undefFieldError : String := "Cannot read properties of undefined"

/-- The predicate `block => block.type === 'tool_use'`, which throws when a
block is `null` or `undefined`. -/
def blockIsToolUseE (b : JSVal) : Except String Bool :=
  match b with
  | .null => .error nullFieldError
  | .undef => .error undefFieldError
  | _ => .ok (isToolUseBlock b)

/-- Model of `content.filter(block => block.type === 'tool_use')`: the callback runs
left to right and a throw aborts the whole filter. -/
def filterToolUseE : List JSVal → Except String (List JSVal)
  | [] => .ok []
  | b :: bs =>
    match blockIsToolUseE b with
    | .error e => .error e
    | .ok keep =>
      match filterToolUseE bs with
      | .error e => .error e
      | .ok rest => .ok (if keep then b :: rest else rest)

/-- Model of `content.some(block => block.type === 'tool_use')`: short-circuits at
the first `true`, so a later bad block is never touched. -/
def anyToolUseE : List JSVal → Except String Bool
  | [] => .ok false
  | b :: bs =>
    match blockIsToolUseE b with
    | .error e => .error e
    | .ok t => if t then .ok true else anyToolUseE bs

/-- Placeholder for the generated id
`call_${Date.now()}_${Math.random().toString(36).substring(2, 11)}`:
time and randomness are outside the embedding, so the fresh id is a fixed
string. -/
def generatedCallId : String := "call_generated"

/-- Conversion of one tool_use block to the OpenAI tool-call object, as
built by StreamingManager.parseToolCalls. -/
def convertToolUseBlock (b : JSVal) : JSVal :=
  .obj [("id",
          if fieldTruthy b "id" then (getField b "id").getD .undef
          else .str generatedCallId),
        ("type", .str "function"),
        ("function", .obj
          [("name", (getField b "name").getD .undef),
           ("arguments", .str (jsonStringify
             (if fieldTruthy b "input" then (getField b "input").getD .undef
              else .obj [])))])]

/-- The JavaScript test `v.length > 0`: arrays and strings have a numeric
length; for other objects the `length` property is compared when it is a
number (other coercions of non-numeric `length` values do not occur in the
pipeline and are modelled as false); `undefined > 0` is false. -/
def jsLengthGtZero : JSVal → Bool
  | .arr xs => decide (0 < xs.length)
  | .str s => decide (0 < s.length)
  | .obj fs =>
    match List.lookup "length" fs with
    | some (.num n) => decide (0 < n)
    | _ => false
  | _ => false

/-- StreamingManager.parseToolCalls: the `tool_calls` property passes
through verbatim when truthy, else the tool_use blocks of a content array
are converted; a `.length > 0` result is relayed as a tool-call chunk and
anything else falls back to extracted content of `chunk.content || chunk`. -/
def parseToolCallsE (chunk : JSVal) : Except String ParsedChunk :=
  match ((if fieldTruthy chunk "tool_calls" then
           .ok ((getField chunk "tool_calls").getD .undef)
         else
           match getField chunk "content" with
           | some (.arr blocks) =>
             match filterToolUseE blocks with
             | .error e => .error e
             | .ok toolUseBlocks =>
               .ok (JSVal.arr (toolUseBlocks.map convertToolUseBlock))
           | _ => .ok (JSVal.arr [])) : Except String JSVal) with
  | .error e => .error e
  | .ok toolCalls =>
    if jsLengthGtZero toolCalls then .ok (.toolCallsChunk toolCalls)
    else .ok (.assistantMessage (.str (extractContent
      (if fieldTruthy chunk "content" then (getField chunk "content").getD .undef
       else chunk))))

/-- The `chunk.type === 'assistant' && chunk.message` branch of
normalizeClaudeChunk: `some p` means the branch returned `p`, `none` means
control fell through to the later probes. -/
def assistantEnvelopeE (chunk : JSVal) : Except String (Option ParsedChunk) :=
  if typeEq chunk "assistant" && fieldTruthy chunk "message" then
    match getField ((getField chunk "message").getD .undef) "content" with
    | some (.arr blocks) =>
      match filterToolUseE blocks with
      | .error e => .error e
      | .ok toolUseBlocks =>
        if 0 < toolUseBlocks.length then
          match parseToolCallsE (.obj [("content", .arr blocks)]) with
          | .error e => .error e
          | .ok p => .ok (some p)
        else
          if extractContent (.arr blocks) ≠ "" then
            .ok (some (.assistantMessage (.str (extractContent (.arr blocks)))))
          else .ok none
    | _ => .ok none
  else .ok none

/-- The `chunk.tool_calls || (chunk.content && Array.isArray && .some(tool_use))`
branch of normalizeClaudeChunk, with the short-circuit of `||`. -/
def toolCallsProbeE (chunk : JSVal) : Except String (Option ParsedChunk) :=
  if fieldTruthy chunk "tool_calls" then
    match parseToolCallsE chunk with
    | .error e => .error e
    | .ok p => .ok (some p)
  else
    match (match getField chunk "content" with
           | some (.arr blocks) => anyToolUseE blocks
           | _ => (.ok false : Except String Bool)) with
    | .error e => .error e
    | .ok true =>
      match parseToolCallsE chunk with
      | .error e => .error e
      | .ok p => .ok (some p)
    | .ok false => .ok none

/-- The remaining (non-throwing) probes of normalizeClaudeChunk: a content
block list, a flat text chunk, and a raw string. -/
def lateProbes (chunk : JSVal) : Option ParsedChunk :=
  match getField chunk "content" with
  | some (.arr blocks) => some (.assistantMessage (.str (extractContent (.arr blocks))))
  | _ =>
    if typeEq chunk "text" && fieldTruthy chunk "content" then
      some (.assistantMessage ((getField chunk "content").getD .undef))
    else
      match chunk with
      | .str s => some (.assistantMessage (.str s))
      | _ => none

/-- StreamingManager.normalizeClaudeChunk, with the JavaScript exceptions
(property access on `null`/`undefined` list elements, or on a
`null`/`undefined` chunk) modelled in `Except`: the system/result/user
probe, the assistant-envelope branch, the tool-calls probe and the late
probes in source order, and unknown for anything unrecognized. -/
def normalizeClaudeChunkE (chunk : JSVal) : Except String ParsedChunk :=
  match chunk with
  | .null => .error nullFieldError
  | .undef => .error undefFieldError
  | _ =>
    if typeEq chunk "system" || typeEq chunk "result" || typeEq chunk "user" then
      .ok (.systemChunk chunk)
    else
      match assistantEnvelopeE chunk with
      | .error e => .error e
      | .ok (some p) => .ok p
      | .ok none =>
        match toolCallsProbeE chunk with
        | .error e => .error e
        | .ok (some p) => .ok p
        | .ok none =>
          match lateProbes chunk with
          | some p => .ok p
          | none => .ok (.unknownChunk chunk)

/-- StreamingManager.parseClaudeChunk: values with JavaScript typeof
`object` (objects, arrays, `null`) go through normalizeClaudeChunk with
exceptions caught into an error chunk; strings are checked for
whitespace-emptiness and otherwise treated as raw text (the string case
models the `JSON.parse` failure path: the subprocess iterator always
yields already-parsed objects, cf. ClaudeProcess.parseClaudeOutput, so a
string reaching this point is never valid JSON); any other typeof gives an
unknown chunk. -/
def parseClaudeChunk (chunk : JSVal) : ParsedChunk :=
  match chunk with
  | .str s => if jsTrim s = "" then .emptyChunk else .assistantMessage (.str s)
  | .num _ => .unknownChunk chunk
  | .jbool _ => .unknownChunk chunk
  | .undef => .unknownChunk chunk
  | _ =>
    match normalizeClaudeChunkE chunk with
    | .ok p => p
    | .error e => .errorChunk e

/-- The delta payloads written through StreamingResponse.writeChunk:
the role announcement `{role: 'assistant', content: ''}`, a content delta
`{content}`, a tool-call delta `{tool_calls}`, and the empty terminal
delta `{}`. -/
inductive Delta where
  | roleDelta
  | contentDelta (content : String)
  | toolCallsDelta (calls : JSVal)
  | emptyDelta

/-- One frame written to the SSE transport.  `chunkEvent` stands for the
`data: <JSON>` frame produced by OpenAIModels.createStreamingChunk (its
request-independent wrapper fields id/object/created/model are not load
bearing for any claim and are not modelled); `errorEvent` is the frame of
StreamingResponse.writeError; `doneMarker` is the literal
`data: [DONE]` frame of StreamingResponse.end. -/
inductive SSEvent where
  | chunkEvent (delta : Delta) (finishReason : Option String)
  | errorEvent (message : String)
  | doneMarker

/-- The state of one StreamingResponse session: the `closed` and
`sentData` flags and the frames written to the transport so far.  The node
response object itself is outside the embedding; transport-level write
failures (the catch branch of `write`) are asynchronous external events
not modelled, so `write` is modelled on its success path guarded by
`closed`. -/
structure SR where
  closed : Bool
  sentData : Bool
  written : List SSEvent

/-- StreamingResponse.write: returns false and writes nothing once the
session is closed, otherwise appends one frame and records `sentData`. -/
def SR.write (s : SR) (e : SSEvent) : SR × Bool :=
  if s.closed then (s, false)
  else ({ s with sentData := true, written := s.written ++ [e] }, true)

/-- StreamingResponse.end: a no-op once closed, otherwise writes the
`[DONE]` marker, ends the transport and marks the session closed. -/
def SR.endStream (s : SR) : SR :=
  if s.closed then s
  else { s with written := s.written ++ [SSEvent.doneMarker], closed := true }

/-- The transport `close`/`error` listeners of setupCleanup: the only
effect is `closed = true`. -/
def SR.onClose (s : SR) : SR := { s with closed := true }

/-- A freshly opened session (closed and sentData start false, nothing
written). -/
def SR.fresh : SR := { closed := false, sentData := false, written := [] }

/-- The local state of one processClaudeStream run together with the
session it drives. -/
structure StreamState where
  roleSent : Bool
  contentSent : Bool
  assistantContent : String
  chunkCount : Nat
  sr : SR

/-- Model of `stream.writeChunk(delta, finishReason)` as used by
processClaudeStream, which ignores the boolean result. -/
def StreamState.writeDelta (st : StreamState) (d : Delta) (fr : Option String) :
    StreamState :=
  { st with sr := (st.sr.write (.chunkEvent d fr)).1 }

/-- Model of the role-announcement step shared by the two chunk branches
of the loop body:
`if (!roleSent) { stream.writeChunk({role: 'assistant', content: ''}); roleSent = true }`. -/
def ensureRole (st : StreamState) : StreamState :=
  if st.roleSent then st
  else { st.writeDelta .roleDelta none with roleSent := true }

/-- One iteration of the processClaudeStream loop body (after the
chunkCount increment and the isClosed check).  A thrown JavaScript error
is an `Except.error` carrying the message and the state at the throw:
an error-typed chunk rethrows its message (or the fixed fallback text for
an empty one), and calling `.trim()` on a truthy non-string content raises
a TypeError.  The optional content-observer callback is only used by the
caller for logging and is not modelled. -/
def processChunk (st : StreamState) (chunk : JSVal) :
    Except (String × StreamState) StreamState :=
  match parseClaudeChunk chunk with
  | .assistantMessage content =>
    let st1 := ensureRole st
    if truthy content then
      match content with
      | .str s =>
        if jsTrim s ≠ "" then
          let filtered := filterContentStr s
          if filtered ≠ "" then
            .ok { st1.writeDelta (.contentDelta filtered) none with
                  assistantContent := st1.assistantContent ++ filtered,
                  contentSent := true }
          else .ok st1
        else .ok st1
      | _ => .error ("parsedChunk.content.trim is not a function", st1)
    else .ok st1
  | .toolCallsChunk calls =>
    let st1 := ensureRole st
    if truthy calls then
      .ok { st1.writeDelta (.toolCallsDelta calls) none with contentSent := true }
    else .ok st1
  | .errorChunk msg =>
    .error ((if msg = "" then "Claude stream error" else msg), st)
  | .systemChunk _ => .ok st
  | .emptyChunk => .ok st
  | .unknownChunk _ => .ok st

/-- The `for await` loop of processClaudeStream over the yielded chunks:
each iteration first counts the chunk, then breaks if the client
disconnected (the returned flag records an early break), then runs the
body. -/
def processLoop (st : StreamState) :
    List JSVal → Except (String × StreamState) (StreamState × Bool)
  | [] => .ok (st, false)
  | c :: cs =>
    let st1 := { st with chunkCount := st.chunkCount + 1 }
    if st1.sr.closed then .ok (st1, true)
    else
      match processChunk st1 c with
      | .error e => .error e
      | .ok st2 => processLoop st2 cs

def fallbackMessage : String :=
  "I\x27m unable to provide a response at the moment."

def noChunksMessage : String :=
  "No response from Claude CLI - check configuration and authentication"

/-- The post-loop code of processClaudeStream: the zero-chunk throw, the
fallback content delta when role was sent without content, the late role
delta when nothing was ever classified, and the final `{}` delta with
finish_reason 'stop'. -/
def finishStream (st : StreamState) : Except (String × StreamState) StreamState :=
  if st.chunkCount = 0 then .error (noChunksMessage, st)
  else
    let st1 :=
      if st.roleSent && !st.contentSent then
        { st.writeDelta (.contentDelta fallbackMessage) none with
          assistantContent := fallbackMessage }
      else if !st.roleSent then
        { st.writeDelta .roleDelta none with roleSent := true }
      else st
    if st1.roleSent then .ok (st1.writeDelta .emptyDelta (some "stop"))
    else .ok st1

/-- The initial loop state of one processClaudeStream call. -/
def initState (sr0 : SR) : StreamState :=
  { roleSent := false, contentSent := false, assistantContent := "",
    chunkCount := 0, sr := sr0 }

/-- The catch block of processClaudeStream: one best-effort error frame is
written if the session is still open, before the error is rethrown. -/
def catchWrite (msg : String) (sr : SR) : SR :=
  if sr.closed then sr else (sr.write (.errorEvent msg)).1

/-- StreamingManager.processClaudeStream, driving a session from the given
initial state over the chunks yielded by the subprocess iterator.
`genErr` is the error, if any, that the iterator throws after its last
yield (cf. executeStreamingError); it surfaces at the next `for await`
step, so only when the loop was not broken out of.  On success the
accumulated assistant text and the final session state are returned; a
thrown error is caught once, a best-effort error frame is written if the
session is still open, and the error is rethrown. -/
def processClaudeStream (chunks : List JSVal) (genErr : Option String)
    (sr0 : SR) : Except (String × SR) (String × SR) :=
  match ((match processLoop (initState sr0) chunks with
         | .error e => .error e
         | .ok (st, broke) =>
           match genErr, broke with
           | some m, false => .error (m, st)
           | _, _ => finishStream st) :
           Except (String × StreamState) StreamState) with
  | .ok st => .ok (st.assistantContent, st.sr)
  | .error (msg, st) => .error (msg, catchWrite msg st.sr)

def noOutputMessage : String :=
  "No output from Claude CLI - check model name and authentication"

/-- The chunks yielded by ClaudeProcess.executeStreaming for a given
sequence of raw stdout data events: each data chunk is split on newlines,
blank lines are skipped, and every other line is parsed by
parseClaudeOutput.  `parseLine` abstracts parseClaudeOutput (whose
`JSON.parse` is not modelled; no claim depends on it). -/
def executeStreamingYields (parseLine : String → JSVal)
    (dataChunks : List String) : List JSVal :=
  (dataChunks.map (fun chunk =>
    (((chunk.splitOn "\n").filter (fun line => jsTrim line ≠ "")).map
      (fun line => parseLine (jsTrim line))))).flatten

/-- The terminal throw of ClaudeProcess.executeStreaming: after a clean
exit with zero data events and an empty buffer, the no-output error is
raised and rethrown wrapped by the catch block (the stderr suffix is
omitted: stderr is not modelled).  Non-zero exit codes and spawn failures
are external process events outside the embedding. -/
def executeStreamingError (dataChunks : List String) : Option String :=
  if dataChunks.length = 0 && (String.join dataChunks).length = 0 then
    some ("Claude CLI streaming error: " ++ noOutputMessage)
  else none

/-- The composed streaming path: processClaudeStream consuming the
iterator of executeStreaming on a fresh session, as wired by
ChatHandler.handleStreamingRequest. -/
def runStreamingRequest (parseLine : String → JSVal)
    (dataChunks : List String) : Except (String × SR) (String × SR) :=
  processClaudeStream (executeStreamingYields parseLine dataChunks)
    (executeStreamingError dataChunks) SR.fresh

/-- The fields of the validated chat-completion request object that the
tool-rejection guard of ChatHandler reads.  Validation passes `tools` and
`functions` through untouched when the request body carried a truthy value
for them (`validated.tools = body.tools`), else leaves them absent. -/
structure ChatRequest where
  model : String
  stream : Bool
  tools : Option JSVal
  functions : Option JSVal

/-- The guard
`(request.tools && request.tools.length > 0) || (request.functions && request.functions.length > 0)`
shared by both ChatHandler request paths. -/
def hasToolsOrFunctions (r : ChatRequest) : Bool :=
  (match r.tools with
   | some t => truthy t && jsLengthGtZero t
   | none => false) ||
  (match r.functions with
   | some f => truthy f && jsLengthGtZero f
   | none => false)

/-- The externally observable steps of a ChatHandler request path that the
claims are about: the early error response, the creation of the SSE
session, the spawn of the Claude CLI subprocess, the JSON response of the
non-streaming path, and ending the SSE session. -/
inductive HandlerStep where
  | sendErrorStep (status : Nat) (message : String) (etype : String)
  | createStreamStep
  | spawnClaudeStep
  | sendResponseStep
  | endStreamStep
deriving DecidableEq

/-- ChatHandler.handleStreamingRequest as its trace of observable steps:
the tool/function guard responds 400 and returns before anything else;
otherwise the handler creates the SSE session, spawns the Claude CLI
(claudeCLI.streamingCompletion), processes the stream and finally ends
the session (the message adaptation and logging between these steps carry
no observable effect of their own). -/
def handleStreamingRequestSteps (r : ChatRequest) : List HandlerStep :=
  if hasToolsOrFunctions r then
    [.sendErrorStep 400 "Tool/function calling is not supported"
      "invalid_request_error"]
  else
    [.createStreamStep, .spawnClaudeStep, .endStreamStep]

/-- ChatHandler.handleNonStreamingRequest as its trace of observable
steps: the same guard responds 400 first; otherwise the handler executes
the Claude CLI (claudeCLI.completion) and sends the JSON response. -/
def handleNonStreamingRequestSteps (r : ChatRequest) : List HandlerStep :=
  if hasToolsOrFunctions r then
    [.sendErrorStep 400 "Tool/function calling is not supported"
      "invalid_request_error"]
  else
    [.spawnClaudeStep, .sendResponseStep]

/-- Event classifiers over the written frames. -/
def isRoleEv : SSEvent → Bool
  | .chunkEvent .roleDelta _ => true
  | _ => false

def isContentEv : SSEvent → Bool
  | .chunkEvent (.contentDelta _) _ => true
  | _ => false

def isToolEv : SSEvent → Bool
  | .chunkEvent (.toolCallsDelta _) _ => true
  | _ => false

def isBodyEv (e : SSEvent) : Bool := isContentEv e || isToolEv e

def isStopEv : SSEvent → Bool
  | .chunkEvent _ (some r) => r == "stop"
  | _ => false

/-- The content string carried by a frame (empty for non-content frames). -/
def contentOf : SSEvent → String
  | .chunkEvent (.contentDelta s) _ => s
  | _ => ""

/-- The concatenation, in write order, of the content strings of the
content deltas of a frame list. -/
def contentConcat : List SSEvent → String
  | [] => ""
  | e :: es => contentOf e ++ contentConcat es

/-- Checks that, given whether a role delta was already seen, every
content or tool-call delta of the list is preceded by a role delta. -/
def roleBeforeBody (seen : Bool) : List SSEvent → Bool
  | [] => true
  | e :: es =>
    if isBodyEv e then seen && roleBeforeBody seen es
    else roleBeforeBody (seen || isRoleEv e) es

@[simp] theorem isRoleEv_role (fr : Option String) :
    isRoleEv (.chunkEvent .roleDelta fr) = true := rfl
@[simp] theorem isRoleEv_content (s : String) (fr : Option String) :
    isRoleEv (.chunkEvent (.contentDelta s) fr) = false := rfl
@[simp] theorem isRoleEv_tool (c : JSVal) (fr : Option String) :
    isRoleEv (.chunkEvent (.toolCallsDelta c) fr) = false := rfl
@[simp] theorem isRoleEv_emptyD (fr : Option String) :
    isRoleEv (.chunkEvent .emptyDelta fr) = false := rfl
@[simp] theorem isRoleEv_err (m : String) : isRoleEv (.errorEvent m) = false := rfl
@[simp] theorem isRoleEv_done : isRoleEv .doneMarker = false := rfl

@[simp] theorem isContentEv_role (fr : Option String) :
    isContentEv (.chunkEvent .roleDelta fr) = false := rfl
@[simp] theorem isContentEv_content (s : String) (fr : Option String) :
    isContentEv (.chunkEvent (.contentDelta s) fr) = true := rfl
@[simp] theorem isContentEv_tool (c : JSVal) (fr : Option String) :
    isContentEv (.chunkEvent (.toolCallsDelta c) fr) = false := rfl
@[simp] theorem isContentEv_emptyD (fr : Option String) :
    isContentEv (.chunkEvent .emptyDelta fr) = false := rfl
@[simp] theorem isContentEv_err (m : String) :
    isContentEv (.errorEvent m) = false := rfl
@[simp] theorem isContentEv_done : isContentEv .doneMarker = false := rfl

@[simp] theorem isToolEv_role (fr : Option String) :
    isToolEv (.chunkEvent .roleDelta fr) = false := rfl
@[simp] theorem isToolEv_content (s : String) (fr : Option String) :
    isToolEv (.chunkEvent (.contentDelta s) fr) = false := rfl
@[simp] theorem isToolEv_tool (c : JSVal) (fr : Option String) :
    isToolEv (.chunkEvent (.toolCallsDelta c) fr) = true := rfl
@[simp] theorem isToolEv_emptyD (fr : Option String) :
    isToolEv (.chunkEvent .emptyDelta fr) = false := rfl
@[simp] theorem isToolEv_err (m : String) : isToolEv (.errorEvent m) = false := rfl
@[simp] theorem isToolEv_done : isToolEv .doneMarker = false := rfl

@[simp] theorem isStopEv_none (d : Delta) :
    isStopEv (.chunkEvent d none) = false := rfl
@[simp] theorem isStopEv_some (d : Delta) (r : String) :
    isStopEv (.chunkEvent d (some r)) = (r == "stop") := rfl
@[simp] theorem isStopEv_err (m : String) : isStopEv (.errorEvent m) = false := rfl
@[simp] theorem isStopEv_done : isStopEv .doneMarker = false := rfl

@[simp] theorem contentOf_role (fr : Option String) :
    contentOf (.chunkEvent .roleDelta fr) = "" := rfl
@[simp] theorem contentOf_content (s : String) (fr : Option String) :
    contentOf (.chunkEvent (.contentDelta s) fr) = s := rfl
@[simp] theorem contentOf_tool (c : JSVal) (fr : Option String) :
    contentOf (.chunkEvent (.toolCallsDelta c) fr) = "" := rfl
@[simp] theorem contentOf_emptyD (fr : Option String) :
    contentOf (.chunkEvent .emptyDelta fr) = "" := rfl
@[simp] theorem contentOf_err (m : String) : contentOf (.errorEvent m) = "" := rfl
@[simp] theorem contentOf_done : contentOf .doneMarker = "" := rfl

@[simp] theorem contentConcat_nil : contentConcat [] = "" := rfl
@[simp] theorem contentConcat_cons (e : SSEvent) (es : List SSEvent) :
    contentConcat (e :: es) = contentOf e ++ contentConcat es := rfl

theorem not_role_of_body (e : SSEvent) (h : isBodyEv e = true) :
    isRoleEv e = false := by
  cases e with
  | chunkEvent d fr => cases d <;> simp_all [isBodyEv]
  | errorEvent m => simp
  | doneMarker => simp

theorem roleBeforeBody_append (seen : Bool) (a b : List SSEvent) :
    roleBeforeBody seen (a ++ b) =
      (roleBeforeBody seen a && roleBeforeBody (seen || a.any isRoleEv) b) := by
  induction a generalizing seen with
  | nil => simp [roleBeforeBody]
  | cons e es ih =>
    by_cases hb : isBodyEv e = true
    · have hr := not_role_of_body e hb
      by_cases hs : seen = true
      · simp [roleBeforeBody, hb, hs, hr, ih]
      · have hs' : seen = false := by revert hs; cases seen <;> simp
        simp [roleBeforeBody, hb, hs', hr]
    · have hb' : isBodyEv e = false := by revert hb; cases isBodyEv e <;> simp
      simp [roleBeforeBody, hb', ih, List.any_cons, Bool.or_assoc]

theorem contentConcat_append (a b : List SSEvent) :
    contentConcat (a ++ b) = contentConcat a ++ contentConcat b := by
  induction a with
  | nil => simp
  | cons e es ih => simp [ih, String.append_assoc]

theorem contentConcat_eq_empty_of_no_content (a : List SSEvent)
    (h : a.countP (fun e => isContentEv e) = 0) : contentConcat a = "" := by
  induction a with
  | nil => simp
  | cons e es ih =>
    rw [List.countP_cons] at h
    cases e with
    | chunkEvent d fr => cases d <;> simp_all
    | errorEvent m => simp_all
    | doneMarker => simp_all

theorem countP_content_le_body (a : List SSEvent)
    (h : a.countP (fun e => isBodyEv e) = 0) :
    a.countP (fun e => isContentEv e) = 0 ∧
      a.countP (fun e => isToolEv e) = 0 := by
  rw [List.countP_eq_zero] at h
  refine ⟨?_, ?_⟩ <;> rw [List.countP_eq_zero] <;> intro e he
  · have hb := h e he
    simp [isBodyEv] at hb
    simp [hb.1]
  · have hb := h e he
    simp [isBodyEv] at hb
    simp [hb.2]

theorem SR.write_fst_of_open (s : SR) (e : SSEvent) (h : s.closed = false) :
    (s.write e).1 = { s with sentData := true, written := s.written ++ [e] } := by
  simp [SR.write, h]

/-- Invariant maintained by the processClaudeStream loop over states whose
session is still open: the flags mirror the frames written so far. -/
structure Inv (st : StreamState) : Prop where
  closed_eq : st.sr.closed = false
  role_count : st.sr.written.countP (fun e => isRoleEv e) =
    (if st.roleSent then 1 else 0)
  role_any : st.sr.written.any isRoleEv = st.roleSent
  ordering : roleBeforeBody false st.sr.written = true
  stop_count : st.sr.written.countP (fun e => isStopEv e) = 0
  concat_eq : contentConcat st.sr.written = st.assistantContent
  no_body : st.contentSent = false →
    st.sr.written.countP (fun e => isBodyEv e) = 0

theorem inv_fresh (sr0 : SR) (h : sr0 = SR.fresh) :
    Inv { roleSent := false, contentSent := false, assistantContent := "",
          chunkCount := 0, sr := sr0 } := by
  subst h
  constructor <;> simp [SR.fresh, contentConcat, roleBeforeBody]

theorem inv_initState : Inv (initState SR.fresh) := by
  constructor <;> simp [initState, SR.fresh, roleBeforeBody]

theorem writeDelta_eq (st : StreamState) (d : Delta) (fr : Option String)
    (h : st.sr.closed = false) :
    st.writeDelta d fr =
      { st with sr :=
          { st.sr with
            sentData := true
            written := st.sr.written ++ [SSEvent.chunkEvent d fr] } } := by
  simp [StreamState.writeDelta, SR.write_fst_of_open _ _ h]

theorem inv_bump (st : StreamState) (h : Inv st) :
    Inv { st with chunkCount := st.chunkCount + 1 } :=
  ⟨h.closed_eq, h.role_count, h.role_any, h.ordering, h.stop_count,
   h.concat_eq, h.no_body⟩

theorem ensureRole_eq_of_not_sent (st : StreamState)
    (hcl : st.sr.closed = false) (hr : st.roleSent = false) :
    ensureRole st =
      { roleSent := true, contentSent := st.contentSent,
        assistantContent := st.assistantContent, chunkCount := st.chunkCount,
        sr := { closed := false, sentData := true,
                written := st.sr.written ++ [SSEvent.chunkEvent .roleDelta none] } } := by
  simp [ensureRole, hr, StreamState.writeDelta, SR.write, hcl]

/-- Sending the role delta if not sent yet preserves the invariant and
afterwards the role is sent, with the other local fields untouched. -/
theorem inv_ensureRole (st : StreamState) (h : Inv st) :
    Inv (ensureRole st) ∧ (ensureRole st).roleSent = true ∧
      (ensureRole st).contentSent = st.contentSent ∧
      (ensureRole st).assistantContent = st.assistantContent ∧
      (ensureRole st).chunkCount = st.chunkCount ∧
      (ensureRole st).sr.closed = false := by
  by_cases hr : st.roleSent = true
  · rw [ensureRole, if_pos hr]
    exact ⟨h, hr, rfl, rfl, rfl, h.closed_eq⟩
  · have hr' : st.roleSent = false := by revert hr; cases st.roleSent <;> simp
    rw [ensureRole_eq_of_not_sent st h.closed_eq hr']
    refine ⟨⟨rfl, ?_, ?_, ?_, ?_, ?_, ?_⟩, rfl, rfl, rfl, rfl, rfl⟩
    · simp [List.countP_append, h.role_count, hr']
    · simp [List.any_append, h.role_any, hr']
    · simp [roleBeforeBody_append, h.ordering, roleBeforeBody, isBodyEv]
    · simp [List.countP_append, h.stop_count]
    · simp [contentConcat_append, h.concat_eq]
    · intro hc
      simp only at hc
      rw [List.countP_append, h.no_body hc]
      simp [List.countP_cons, isBodyEv]

end ClaudeProxy

namespace ClaudeProxy

theorem contentWrite_eq (st : StreamState) (f : String)
    (hcl : st.sr.closed = false) :
    ({ st.writeDelta (.contentDelta f) none with
       assistantContent := st.assistantContent ++ f, contentSent := true }) =
      { roleSent := st.roleSent
        contentSent := true
        assistantContent := st.assistantContent ++ f
        chunkCount := st.chunkCount
        sr :=
          { closed := false
            sentData := true
            written := st.sr.written ++
              [SSEvent.chunkEvent (.contentDelta f) none] } } := by
  simp [StreamState.writeDelta, SR.write, hcl]

theorem inv_contentWrite (st : StreamState) (h : Inv st)
    (hr : st.roleSent = true) (f : String) :
    Inv { st.writeDelta (.contentDelta f) none with
          assistantContent := st.assistantContent ++ f, contentSent := true } := by
  rw [contentWrite_eq st f h.closed_eq]
  refine ⟨rfl, ?_, ?_, ?_, ?_, ?_, ?_⟩
  · simp [List.countP_append, h.role_count, List.countP_cons]
  · simp [List.any_append, h.role_any]
  · simp [roleBeforeBody_append, h.ordering, roleBeforeBody, isBodyEv,
      h.role_any, hr]
  · simp [List.countP_append, h.stop_count, List.countP_cons]
  · simp [contentConcat_append, h.concat_eq]
  · intro hc
    simp at hc

theorem toolWrite_eq (st : StreamState) (calls : JSVal)
    (hcl : st.sr.closed = false) :
    ({ st.writeDelta (.toolCallsDelta calls) none with contentSent := true }) =
      { roleSent := st.roleSent
        contentSent := true
        assistantContent := st.assistantContent
        chunkCount := st.chunkCount
        sr :=
          { closed := false
            sentData := true
            written := st.sr.written ++
              [SSEvent.chunkEvent (.toolCallsDelta calls) none] } } := by
  simp [StreamState.writeDelta, SR.write, hcl]

theorem inv_toolWrite (st : StreamState) (h : Inv st)
    (hr : st.roleSent = true) (calls : JSVal) :
    Inv { st.writeDelta (.toolCallsDelta calls) none with
          contentSent := true } := by
  rw [toolWrite_eq st calls h.closed_eq]
  refine ⟨rfl, ?_, ?_, ?_, ?_, ?_, ?_⟩
  · simp [List.countP_append, h.role_count, List.countP_cons]
  · simp [List.any_append, h.role_any]
  · simp [roleBeforeBody_append, h.ordering, roleBeforeBody, isBodyEv,
      h.role_any, hr]
  · simp [List.countP_append, h.stop_count, List.countP_cons]
  · simp [contentConcat_append, h.concat_eq]
  · intro hc
    simp at hc

theorem inv_processChunk_ok (st : StreamState) (c : JSVal) (h : Inv st)
    (st' : StreamState) (hok : processChunk st c = .ok st') : Inv st' := by
  obtain ⟨h1, hrole, -, -, -, -⟩ := inv_ensureRole st h
  unfold processChunk at hok
  cases hp : parseClaudeChunk c <;> rw [hp] at hok <;>
    simp only [] at hok
  case assistantMessage content =>
    split at hok
    · cases content <;> simp only [] at hok
      case str s =>
        split at hok
        · split at hok
          · injection hok with he
            subst he
            exact inv_contentWrite _ h1 hrole _
          · injection hok with he
            subst he
            exact h1
        · injection hok with he
          subst he
          exact h1
      all_goals exact (Except.noConfusion hok)
    · injection hok with he
      subst he
      exact h1
  case toolCallsChunk calls =>
    split at hok
    · injection hok with he
      subst he
      exact inv_toolWrite _ h1 hrole _
    · injection hok with he
      subst he
      exact h1
  case errorChunk msg => exact absurd hok (by simp)
  case systemChunk d =>
    injection hok with he
    subst he
    exact h
  case emptyChunk =>
    injection hok with he
    subst he
    exact h
  case unknownChunk d =>
    injection hok with he
    subst he
    exact h

end ClaudeProxy

namespace ClaudeProxy

theorem inv_processChunk_err (st : StreamState) (c : JSVal) (h : Inv st)
    (m : String) (st₂ : StreamState)
    (herr : processChunk st c = .error (m, st₂)) : Inv st₂ := by
  obtain ⟨h1, hrole, -, -, -, -⟩ := inv_ensureRole st h
  unfold processChunk at herr
  cases hp : parseClaudeChunk c <;> rw [hp] at herr <;>
    simp only [] at herr
  case assistantMessage content =>
    split at herr
    · cases content <;> simp only [] at herr
      case str s =>
        split at herr
        · split at herr <;> exact (Except.noConfusion herr)
        · exact (Except.noConfusion herr)
      all_goals
        (injection herr with he; rw [Prod.mk.injEq] at he; exact he.2 ▸ h1)
    · exact (Except.noConfusion herr)
  case toolCallsChunk calls =>
    split at herr <;> exact (Except.noConfusion herr)
  case errorChunk msg =>
    injection herr with he
    rw [Prod.mk.injEq] at he
    exact he.2 ▸ h
  case systemChunk d => exact (Except.noConfusion herr)
  case emptyChunk => exact (Except.noConfusion herr)
  case unknownChunk d => exact (Except.noConfusion herr)

theorem ensureRole_assistantContent (st : StreamState) :
    (ensureRole st).assistantContent = st.assistantContent := by
  unfold ensureRole StreamState.writeDelta
  split <;> rfl

theorem processChunk_content_prefix (st : StreamState) (c : JSVal)
    (st' : StreamState) (hok : processChunk st c = .ok st') :
    ∃ t, st'.assistantContent = st.assistantContent ++ t := by
  have hens := ensureRole_assistantContent st
  unfold processChunk at hok
  cases hp : parseClaudeChunk c <;> rw [hp] at hok <;> simp only [] at hok
  case assistantMessage content =>
    split at hok
    · cases content <;> simp only [] at hok
      case str s =>
        split at hok
        · split at hok
          · injection hok with he
            subst he
            exact ⟨_, by simp only [hens]; rfl⟩
          · injection hok with he
            subst he
            exact ⟨"", by simp [hens]⟩
        · injection hok with he
          subst he
          exact ⟨"", by simp [hens]⟩
      all_goals exact (Except.noConfusion hok)
    · injection hok with he
      subst he
      exact ⟨"", by simp [hens]⟩
  case toolCallsChunk calls =>
    split at hok <;> (injection hok with he; subst he)
    · exact ⟨"", by simp [StreamState.writeDelta, hens]⟩
    · exact ⟨"", by simp [hens]⟩
  case errorChunk msg => exact (Except.noConfusion hok)
  case systemChunk d =>
    injection hok with he
    subst he
    exact ⟨"", by simp⟩
  case emptyChunk =>
    injection hok with he
    subst he
    exact ⟨"", by simp⟩
  case unknownChunk d =>
    injection hok with he
    subst he
    exact ⟨"", by simp⟩

end ClaudeProxy

namespace ClaudeProxy

theorem inv_processLoop (chunks : List JSVal) :
    ∀ st : StreamState, Inv st →
      (∀ st' b, processLoop st chunks = .ok (st', b) → Inv st') ∧
      (∀ m st₂, processLoop st chunks = .error (m, st₂) → Inv st₂) := by
  induction chunks with
  | nil =>
    intro st h
    refine ⟨?_, ?_⟩
    · intro st' b hok
      unfold processLoop at hok
      injection hok with he
      rw [Prod.mk.injEq] at he
      exact he.1 ▸ h
    · intro m st₂ herr
      unfold processLoop at herr
      exact (Except.noConfusion herr)
  | cons c cs ih =>
    intro st h
    have hb : Inv { st with chunkCount := st.chunkCount + 1 } := inv_bump st h
    have hcl : ({ st with chunkCount := st.chunkCount + 1 } : StreamState).sr.closed = false :=
      hb.closed_eq
    refine ⟨?_, ?_⟩
    · intro st' b hok
      unfold processLoop at hok
      rw [if_neg (by simp [h.closed_eq])] at hok
      cases hpc : processChunk { st with chunkCount := st.chunkCount + 1 } c <;>
        rw [hpc] at hok
      case error e => exact (Except.noConfusion hok)
      case ok st2 =>
        exact (ih st2 (inv_processChunk_ok _ _ hb _ hpc)).1 st' b hok
    · intro m st₂ herr
      unfold processLoop at herr
      rw [if_neg (by simp [h.closed_eq])] at herr
      cases hpc : processChunk { st with chunkCount := st.chunkCount + 1 } c <;>
        rw [hpc] at herr
      case error e =>
        injection herr with he
        subst he
        exact inv_processChunk_err _ _ hb _ _ hpc
      case ok st2 =>
        exact (ih st2 (inv_processChunk_ok _ _ hb _ hpc)).2 m st₂ herr

/-- The facts available just before the final stop delta is written. -/
structure PreStop (st : StreamState) : Prop where
  closed_eq : st.sr.closed = false
  role_le : st.sr.written.countP (fun e => isRoleEv e) ≤ 1
  ordering : roleBeforeBody false st.sr.written = true
  stop_count : st.sr.written.countP (fun e => isStopEv e) = 0
  concat_eq : contentConcat st.sr.written = st.assistantContent
  role_true : st.roleSent = true

theorem fallbackWrite_eq (st : StreamState) (hcl : st.sr.closed = false) :
    ({ st.writeDelta (.contentDelta fallbackMessage) none with
       assistantContent := fallbackMessage }) =
      { roleSent := st.roleSent
        contentSent := st.contentSent
        assistantContent := fallbackMessage
        chunkCount := st.chunkCount
        sr :=
          { closed := false
            sentData := true
            written := st.sr.written ++
              [SSEvent.chunkEvent (.contentDelta fallbackMessage) none] } } := by
  simp [StreamState.writeDelta, SR.write, hcl]

theorem roleWrite_eq (st : StreamState) (hcl : st.sr.closed = false) :
    ({ st.writeDelta .roleDelta none with roleSent := true }) =
      { roleSent := true
        contentSent := st.contentSent
        assistantContent := st.assistantContent
        chunkCount := st.chunkCount
        sr :=
          { closed := false
            sentData := true
            written := st.sr.written ++
              [SSEvent.chunkEvent .roleDelta none] } } := by
  simp [StreamState.writeDelta, SR.write, hcl]

theorem prestop_fallback (st : StreamState) (h : Inv st)
    (hRole : st.roleSent = true) (hCont : st.contentSent = false) :
    PreStop
      { roleSent := st.roleSent
        contentSent := st.contentSent
        assistantContent := fallbackMessage
        chunkCount := st.chunkCount
        sr :=
          { closed := false
            sentData := true
            written := st.sr.written ++
              [SSEvent.chunkEvent (.contentDelta fallbackMessage) none] } } := by
  have hcc : st.sr.written.countP (fun e => isContentEv e) = 0 :=
    (countP_content_le_body _ (h.no_body hCont)).1
  refine ⟨rfl, ?_, ?_, ?_, ?_, hRole⟩
  · simp [List.countP_append, List.countP_cons, h.role_count, hRole]
  · simp [roleBeforeBody_append, h.ordering, roleBeforeBody, isBodyEv,
      h.role_any, hRole]
  · simp [List.countP_append, h.stop_count, List.countP_cons]
  · simp [contentConcat_append, contentConcat_eq_empty_of_no_content _ hcc]

theorem prestop_roleWrite (st : StreamState) (h : Inv st)
    (hB : st.roleSent = false) :
    PreStop
      { roleSent := true
        contentSent := st.contentSent
        assistantContent := st.assistantContent
        chunkCount := st.chunkCount
        sr :=
          { closed := false
            sentData := true
            written := st.sr.written ++
              [SSEvent.chunkEvent .roleDelta none] } } := by
  refine ⟨rfl, ?_, ?_, ?_, ?_, rfl⟩
  · simp [List.countP_append, List.countP_cons, h.role_count, hB]
  · simp [roleBeforeBody_append, h.ordering, roleBeforeBody, isBodyEv]
  · simp [List.countP_append, h.stop_count, List.countP_cons]
  · simp [contentConcat_append, h.concat_eq]

theorem prestop_id (st : StreamState) (h : Inv st)
    (hRole : st.roleSent = true) : PreStop st :=
  ⟨h.closed_eq, by rw [h.role_count, hRole]; simp, h.ordering, h.stop_count,
   h.concat_eq, hRole⟩

theorem finish_branches (st : StreamState) (h : Inv st) (st' : StreamState)
    (hf : finishStream st = .ok st') :
    ∃ st1 : StreamState, PreStop st1 ∧
      st' = st1.writeDelta .emptyDelta (some "stop") ∧
      (st1.assistantContent = st.assistantContent ∨
        (st.contentSent = false ∧ st1.assistantContent = fallbackMessage)) := by
  unfold finishStream at hf
  split at hf
  · exact (Except.noConfusion hf)
  · by_cases hA : (st.roleSent && !st.contentSent) = true
    · have hRole : st.roleSent = true := by
        revert hA; cases st.roleSent <;> simp
      have hCont : st.contentSent = false := by
        revert hA; cases st.contentSent <;> simp
      rw [if_pos hA, fallbackWrite_eq st h.closed_eq] at hf
      rw [if_pos hRole] at hf
      injection hf with he
      exact ⟨_, prestop_fallback st h hRole hCont, he.symm, Or.inr ⟨hCont, rfl⟩⟩
    · rw [if_neg hA] at hf
      by_cases hB : st.roleSent = true
      · rw [if_neg (show ¬((!st.roleSent) = true) by rw [hB]; decide)] at hf
        rw [if_pos hB] at hf
        injection hf with he
        exact ⟨st, prestop_id st h hB, he.symm, Or.inl rfl⟩
      · have hB' : st.roleSent = false := by
          revert hB; cases st.roleSent <;> simp
        rw [if_pos (show (!st.roleSent) = true by rw [hB']; rfl),
          roleWrite_eq st h.closed_eq] at hf
        rw [if_pos (show (true : Bool) = true from rfl)] at hf
        injection hf with he
        exact ⟨_, prestop_roleWrite st h hB', he.symm, Or.inl rfl⟩

theorem finish_ok_props (st : StreamState) (h : Inv st) (st' : StreamState)
    (hf : finishStream st = .ok st') :
    st'.sr.closed = false ∧
    contentConcat st'.sr.written = st'.assistantContent ∧
    roleBeforeBody false st'.sr.written = true ∧
    st'.sr.written.countP (fun e => isRoleEv e) ≤ 1 ∧
    st'.sr.written.countP (fun e => isStopEv e) = 1 ∧
    ∃ pre, st'.sr.written = pre ++ [SSEvent.chunkEvent .emptyDelta (some "stop")] ∧
      pre.countP (fun e => isStopEv e) = 0 := by
  obtain ⟨st1, hp, he, -⟩ := finish_branches st h st' hf
  subst he
  rw [writeDelta_eq _ _ _ hp.closed_eq]
  refine ⟨hp.closed_eq, ?_, ?_, ?_, ?_, ?_⟩
  · simp [contentConcat_append, hp.concat_eq]
  · simp [roleBeforeBody_append, hp.ordering, roleBeforeBody, isBodyEv]
  · simp only [List.countP_append, List.countP_cons]
    simp
    exact hp.role_le
  · simp [List.countP_append, hp.stop_count, List.countP_cons]
  · exact ⟨_, rfl, hp.stop_count⟩

end ClaudeProxy

namespace ClaudeProxy

/-- The final session state of a processClaudeStream run, whether it
returned or threw. -/
def runSR : Except (String × SR) (String × SR) → SR
  | .ok p => p.2
  | .error p => p.2

theorem finish_tail_ne_error (st1 : StreamState) (m : String)
    (st₃ : StreamState) :
    (if st1.roleSent = true then
       Except.ok (st1.writeDelta .emptyDelta (some "stop"))
     else Except.ok st1) ≠
      (Except.error (m, st₃) : Except (String × StreamState) StreamState) := by
  split <;> simp

theorem catchWrite_props (st : StreamState) (h : Inv st) (msg : String) :
    roleBeforeBody false (catchWrite msg st.sr).written = true ∧
    (catchWrite msg st.sr).written.countP (fun e => isRoleEv e) ≤ 1 := by
  unfold catchWrite
  rw [if_neg (by simp [h.closed_eq]), SR.write_fst_of_open _ _ h.closed_eq]
  constructor
  · simp [roleBeforeBody_append, h.ordering, roleBeforeBody, isBodyEv]
  · simp only [List.countP_append, List.countP_cons]
    rw [h.role_count]
    split <;> simp

/-- C1: for every sequence of normalized subprocess chunks consumed by
processClaudeStream (and any terminal iterator error), in the frames
written to a fresh session a role-announcement delta precedes every
content delta and every tool-call delta, and at most one role-announcement
delta is written per stream.  This holds on every termination path,
normal or error. -/
theorem claim_C1_role_announcement_first (chunks : List JSVal)
    (genErr : Option String) :
    roleBeforeBody false
      (runSR (processClaudeStream chunks genErr SR.fresh)).written = true ∧
    (runSR (processClaudeStream chunks genErr SR.fresh)).written.countP
      (fun e => isRoleEv e) ≤ 1 := by
  have h0 : Inv (initState SR.fresh) := inv_initState
  rcases hl : processLoop (initState SR.fresh) chunks with ⟨m, st₂⟩ | ⟨st, broke⟩
  · have h2 : Inv st₂ := (inv_processLoop chunks _ h0).2 m st₂ hl
    simp only [processClaudeStream, hl, runSR]
    exact catchWrite_props st₂ h2 m
  · have h2 : Inv st := (inv_processLoop chunks _ h0).1 st broke hl
    have hfin : ∀ hgb : Except (String × StreamState) StreamState,
        hgb = finishStream st →
        (roleBeforeBody false (runSR (match hgb with
          | .ok stf => .ok (stf.assistantContent, stf.sr)
          | .error (msg, st₃) => .error (msg, catchWrite msg st₃.sr))).written
            = true ∧
         (runSR (match hgb with
          | .ok stf => .ok (stf.assistantContent, stf.sr)
          | .error (msg, st₃) => .error (msg, catchWrite msg st₃.sr))).written.countP
            (fun e => isRoleEv e) ≤ 1) := by
      intro hgb hdef
      rcases hgb with ⟨m2, st₃⟩ | stf
      · have hinv3 : Inv st₃ := by
          unfold finishStream at hdef
          split at hdef
          · injection hdef.symm with he
            rw [Prod.mk.injEq] at he
            exact he.2 ▸ h2
          · exact absurd hdef.symm (finish_tail_ne_error _ m2 st₃)
        simp only [runSR]
        exact catchWrite_props st₃ hinv3 m2
      · obtain ⟨-, -, hrb, hrc, -, -⟩ := finish_ok_props st h2 stf hdef.symm
        simp only [runSR]
        exact ⟨hrb, hrc⟩
    cases genErr with
    | some m =>
      cases broke with
      | false =>
        simp only [processClaudeStream, hl, runSR]
        exact catchWrite_props st h2 m
      | true =>
        simp only [processClaudeStream, hl]
        exact hfin (finishStream st) rfl
    | none =>
      simp only [processClaudeStream, hl]
      exact hfin (finishStream st) rfl

end ClaudeProxy

namespace ClaudeProxy

/-- C2: every run of processClaudeStream on a fresh session that returns
normally has written exactly one delta with finish_reason "stop", that
delta carries the empty payload and is the last frame written, and
StreamingResponse.end then appends exactly the `[DONE]` marker after it. -/
theorem claim_C2_single_terminal_delta (chunks : List JSVal)
    (genErr : Option String) (text : String) (sr1 : SR)
    (hok : processClaudeStream chunks genErr SR.fresh = .ok (text, sr1)) :
    sr1.written.countP (fun e => isStopEv e) = 1 ∧
    (∃ pre, sr1.written = pre ++ [SSEvent.chunkEvent .emptyDelta (some "stop")] ∧
       pre.countP (fun e => isStopEv e) = 0) ∧
    (SR.endStream sr1).written = sr1.written ++ [SSEvent.doneMarker] := by
  have h0 : Inv (initState SR.fresh) := inv_initState
  rcases hl : processLoop (initState SR.fresh) chunks with ⟨m, st₂⟩ | ⟨st, broke⟩
  · simp only [processClaudeStream, hl] at hok
    exact (Except.noConfusion hok)
  · have h2 : Inv st := (inv_processLoop chunks _ h0).1 st broke hl
    have step : ∀ stf : StreamState, finishStream st = .ok stf →
        Except.ok (stf.assistantContent, stf.sr) =
          (Except.ok (text, sr1) : Except (String × SR) (String × SR)) →
        sr1.written.countP (fun e => isStopEv e) = 1 ∧
        (∃ pre, sr1.written =
            pre ++ [SSEvent.chunkEvent .emptyDelta (some "stop")] ∧
          pre.countP (fun e => isStopEv e) = 0) ∧
        (SR.endStream sr1).written = sr1.written ++ [SSEvent.doneMarker] := by
      intro stf hf heq
      injection heq with hp
      rw [Prod.mk.injEq] at hp
      obtain ⟨hcl, -, -, -, hstop, pre, hdec, hpre⟩ :=
        finish_ok_props st h2 stf hf
      have hsr : sr1 = stf.sr := hp.2.symm
      subst hsr
      refine ⟨hstop, ⟨pre, hdec, hpre⟩, ?_⟩
      unfold SR.endStream
      rw [if_neg (by simp [hcl])]
    cases genErr with
    | some m =>
      cases broke with
      | false =>
        simp only [processClaudeStream, hl] at hok
        exact (Except.noConfusion hok)
      | true =>
        rcases hf : finishStream st with ⟨m2, st₃⟩ | stf
        · simp only [processClaudeStream, hl, hf] at hok
          exact (Except.noConfusion hok)
        · simp only [processClaudeStream, hl, hf] at hok
          exact step stf hf hok
    | none =>
      rcases hf : finishStream st with ⟨m2, st₃⟩ | stf
      · simp only [processClaudeStream, hl, hf] at hok
        exact (Except.noConfusion hok)
      · simp only [processClaudeStream, hl, hf] at hok
        exact step stf hf hok

theorem finish_content_prefix (st st' : StreamState)
    (hcs : st.contentSent = false → st.assistantContent = "")
    (hf : finishStream st = .ok st') :
    ∃ t, st'.assistantContent = st.assistantContent ++ t := by
  unfold finishStream at hf
  split at hf
  · exact (Except.noConfusion hf)
  · simp only [StreamState.writeDelta] at hf
    by_cases hA : (st.roleSent && !st.contentSent) = true
    · have hCont : st.contentSent = false := by
        revert hA; cases st.contentSent <;> simp
      have hE := hcs hCont
      rw [if_pos hA] at hf
      by_cases hR : st.roleSent = true
      · rw [if_pos hR] at hf
        injection hf with he
        subst he
        exact ⟨fallbackMessage, by simp [StreamState.writeDelta, hE]⟩
      · rw [if_neg hR] at hf
        injection hf with he
        subst he
        exact ⟨fallbackMessage, by simp [hE]⟩
    · rw [if_neg hA] at hf
      by_cases hB : (!st.roleSent) = true
      · rw [if_pos hB] at hf
        rw [if_pos (show (true : Bool) = true from rfl)] at hf
        injection hf with he
        subst he
        exact ⟨"", by simp [StreamState.writeDelta]⟩
      · rw [if_neg hB] at hf
        by_cases hR : st.roleSent = true
        · rw [if_pos hR] at hf
          injection hf with he
          subst he
          exact ⟨"", by simp [StreamState.writeDelta]⟩
        · rw [if_neg hR] at hf
          injection hf with he
          subst he
          exact ⟨"", by simp⟩

/-- C3: on every normally completing run over a fresh session the returned
accumulated text equals the concatenation, in write order, of the content
strings of the content deltas written (the fallback message is itself
written as a content delta, so the equation covers that case); and the
accumulated string only ever grows: each loop step and the post-loop step
append to it. -/
theorem claim_C3_accumulated_text :
    (∀ (chunks : List JSVal) (genErr : Option String) (text : String)
        (sr1 : SR),
      processClaudeStream chunks genErr SR.fresh = .ok (text, sr1) →
      text = contentConcat sr1.written) ∧
    (∀ (st : StreamState) (c : JSVal) (st' : StreamState),
      processChunk st c = .ok st' →
      ∃ t, st'.assistantContent = st.assistantContent ++ t) ∧
    (∀ st st' : StreamState,
      (st.contentSent = false → st.assistantContent = "") →
      finishStream st = .ok st' →
      ∃ t, st'.assistantContent = st.assistantContent ++ t) := by
  refine ⟨?_, processChunk_content_prefix, finish_content_prefix⟩
  intro chunks genErr text sr1 hok
  have h0 : Inv (initState SR.fresh) := inv_initState
  rcases hl : processLoop (initState SR.fresh) chunks with ⟨m, st₂⟩ | ⟨st, broke⟩
  · simp only [processClaudeStream, hl] at hok
    exact (Except.noConfusion hok)
  · have h2 : Inv st := (inv_processLoop chunks _ h0).1 st broke hl
    have step : ∀ stf : StreamState, finishStream st = .ok stf →
        Except.ok (stf.assistantContent, stf.sr) =
          (Except.ok (text, sr1) : Except (String × SR) (String × SR)) →
        text = contentConcat sr1.written := by
      intro stf hf heq
      injection heq with hp
      rw [Prod.mk.injEq] at hp
      obtain ⟨-, hconc, -, -, -, -⟩ := finish_ok_props st h2 stf hf
      rw [← hp.1, ← hp.2]
      exact hconc.symm
    cases genErr with
    | some m =>
      cases broke with
      | false =>
        simp only [processClaudeStream, hl] at hok
        exact (Except.noConfusion hok)
      | true =>
        rcases hf : finishStream st with ⟨m2, st₃⟩ | stf
        · simp only [processClaudeStream, hl, hf] at hok
          exact (Except.noConfusion hok)
        · simp only [processClaudeStream, hl, hf] at hok
          exact step stf hf hok
    | none =>
      rcases hf : finishStream st with ⟨m2, st₃⟩ | stf
      · simp only [processClaudeStream, hl, hf] at hok
        exact (Except.noConfusion hok)
      · simp only [processClaudeStream, hl, hf] at hok
        exact step stf hf hok

/-- C5: when the loop finished (without break or iterator error) with the
role sent but no content or tool-call delta written, the run completes
with exactly one content delta carrying the fixed fallback message,
followed by the terminal delta, and the fallback message is the
accumulated text returned to the caller. -/
theorem claim_C5_fallback_message (chunks : List JSVal) (st : StreamState)
    (hl : processLoop (initState SR.fresh) chunks = .ok (st, false))
    (hRole : st.roleSent = true) (hCont : st.contentSent = false)
    (hCnt : ¬ st.chunkCount = 0) :
    processClaudeStream chunks none SR.fresh =
      .ok (fallbackMessage,
        { closed := false
          sentData := true
          written := st.sr.written ++
            [SSEvent.chunkEvent (.contentDelta fallbackMessage) none,
             SSEvent.chunkEvent .emptyDelta (some "stop")] }) ∧
    st.sr.written.countP (fun e => isContentEv e) = 0 ∧
    (st.sr.written ++
      [SSEvent.chunkEvent (.contentDelta fallbackMessage) none,
       SSEvent.chunkEvent .emptyDelta (some "stop")]).countP
        (fun e => isContentEv e) = 1 := by
  have h0 : Inv (initState SR.fresh) := inv_initState
  have h2 : Inv st := (inv_processLoop chunks _ h0).1 st false hl
  have hcc : st.sr.written.countP (fun e => isContentEv e) = 0 :=
    (countP_content_le_body _ (h2.no_body hCont)).1
  have hA : (st.roleSent && !st.contentSent) = true := by
    rw [hRole, hCont]
    rfl
  have hfin : finishStream st = .ok
      (({ roleSent := st.roleSent
          contentSent := st.contentSent
          assistantContent := fallbackMessage
          chunkCount := st.chunkCount
          sr :=
            { closed := false
              sentData := true
              written := st.sr.written ++
                [SSEvent.chunkEvent (.contentDelta fallbackMessage) none] } } :
        StreamState).writeDelta .emptyDelta (some "stop")) := by
    unfold finishStream
    rw [if_neg hCnt, if_pos hA, fallbackWrite_eq st h2.closed_eq, if_pos hRole]
  have hfin2 : finishStream st = .ok
      { roleSent := st.roleSent
        contentSent := st.contentSent
        assistantContent := fallbackMessage
        chunkCount := st.chunkCount
        sr :=
          { closed := false
            sentData := true
            written := st.sr.written ++
              [SSEvent.chunkEvent (.contentDelta fallbackMessage) none,
               SSEvent.chunkEvent .emptyDelta (some "stop")] } } := by
    rw [hfin, writeDelta_eq _ _ _ rfl]
    simp
  refine ⟨?_, hcc, ?_⟩
  · simp only [processClaudeStream, hl, hfin2]
  · simp [List.countP_append, List.countP_cons, hcc]

end ClaudeProxy

namespace ClaudeProxy

/-- C6: a subprocess run with zero output data events makes the streaming
request fail with the no-output error raised by executeStreaming (wrapped
by its catch block) rather than complete, and the only frame ever written
to the client on that path is the error frame - in particular no content
delta is written. -/
theorem claim_C6_no_output_error (parseLine : String → JSVal) :
    runStreamingRequest parseLine [] =
      .error ("Claude CLI streaming error: " ++ noOutputMessage,
        { closed := false
          sentData := true
          written := [SSEvent.errorEvent
            ("Claude CLI streaming error: " ++ noOutputMessage)] }) ∧
    [SSEvent.errorEvent ("Claude CLI streaming error: " ++
      noOutputMessage)].countP (fun e => isContentEv e) = 0 := by
  constructor
  · rfl
  · simp

/-- C9: once a StreamingResponse session is closed, write returns false
without effect, end is a no-op, calling end twice has no additional
effect on any session, and no operation ever resets the closed flag. -/
theorem claim_C9_closed_session (s : SR) (h : s.closed = true) :
    (∀ e, s.write e = (s, false)) ∧
    SR.endStream s = s ∧
    (∀ s' : SR, SR.endStream (SR.endStream s') = SR.endStream s') ∧
    (∀ (s' : SR) (e : SSEvent), s'.closed = true →
      ((s'.write e).1.closed = true ∧ (SR.endStream s').closed = true ∧
        (SR.onClose s').closed = true)) := by
  refine ⟨?_, ?_, ?_, ?_⟩
  · intro e
    simp [SR.write, h]
  · simp [SR.endStream, h]
  · intro s'
    by_cases hc : s'.closed = true
    · simp [SR.endStream, hc]
    · have hc' : s'.closed = false := by
        revert hc; cases s'.closed <;> simp
      simp [SR.endStream, hc']
  · intro s' e hc
    refine ⟨?_, ?_, ?_⟩
    · simp [SR.write, hc]
    · simp [SR.endStream, hc]
    · simp [SR.onClose]

theorem claim_C9_witness :
    ((⟨true, false, []⟩ : SR).closed = true) ∧
    ((⟨true, false, []⟩ : SR).write .doneMarker = (⟨true, false, []⟩, false)) ∧
    (SR.endStream (⟨true, false, []⟩ : SR) = ⟨true, false, []⟩) :=
  ⟨rfl, (claim_C9_closed_session ⟨true, false, []⟩ rfl).1 .doneMarker,
   (claim_C9_closed_session ⟨true, false, []⟩ rfl).2.1⟩

/-- C10: a validated request with a non-empty tools array or a non-empty
functions array is answered, on both the streaming and the non-streaming
path, with the 400 tool-rejection error as the only step, and the Claude
CLI subprocess is never spawned for it. -/
theorem claim_C10_tools_rejected (r : ChatRequest)
    (h : (∃ ts, r.tools = some (.arr ts) ∧ ts ≠ []) ∨
         (∃ fs, r.functions = some (.arr fs) ∧ fs ≠ [])) :
    handleStreamingRequestSteps r =
      [.sendErrorStep 400 "Tool/function calling is not supported"
        "invalid_request_error"] ∧
    handleNonStreamingRequestSteps r =
      [.sendErrorStep 400 "Tool/function calling is not supported"
        "invalid_request_error"] ∧
    HandlerStep.spawnClaudeStep ∉ handleStreamingRequestSteps r ∧
    HandlerStep.spawnClaudeStep ∉ handleNonStreamingRequestSteps r := by
  have hb : hasToolsOrFunctions r = true := by
    rcases h with ⟨ts, ht, hne⟩ | ⟨fs, ht, hne⟩ <;>
      simp [hasToolsOrFunctions, ht, truthy, jsLengthGtZero,
        List.length_pos, hne]
  refine ⟨?_, ?_, ?_, ?_⟩ <;>
    simp [handleStreamingRequestSteps, handleNonStreamingRequestSteps, hb]

theorem claim_C10_witness :
    handleStreamingRequestSteps
        ⟨"any", true, some (.arr [.obj []]), none⟩ =
      [.sendErrorStep 400 "Tool/function calling is not supported"
        "invalid_request_error"] ∧
    HandlerStep.spawnClaudeStep ∉ handleNonStreamingRequestSteps
        ⟨"any", true, some (.arr [.obj []]), none⟩ :=
  ⟨(claim_C10_tools_rejected _ (Or.inl ⟨[.obj []], rfl, by simp⟩)).1,
   (claim_C10_tools_rejected _ (Or.inl ⟨[.obj []], rfl, by simp⟩)).2.2.2⟩

end ClaudeProxy

namespace ClaudeProxy

theorem claim_C2_witness :
    processClaudeStream
        [JSVal.obj [("type", .str "text"), ("content", .str "Hi")]] none
        SR.fresh =
      .ok ("Hi",
        ⟨false, true,
         [.chunkEvent .roleDelta none, .chunkEvent (.contentDelta "Hi") none,
          .chunkEvent .emptyDelta (some "stop")]⟩) ∧
    ([SSEvent.chunkEvent .roleDelta none,
      .chunkEvent (.contentDelta "Hi") none,
      .chunkEvent .emptyDelta (some "stop")].countP
        (fun e => isStopEv e) = 1) ∧
    (SR.endStream ⟨false, true,
        [.chunkEvent .roleDelta none, .chunkEvent (.contentDelta "Hi") none,
         .chunkEvent .emptyDelta (some "stop")]⟩).written =
      [SSEvent.chunkEvent .roleDelta none,
       .chunkEvent (.contentDelta "Hi") none,
       .chunkEvent .emptyDelta (some "stop")] ++ [SSEvent.doneMarker] :=
  ⟨rfl,
   (claim_C2_single_terminal_delta
     [JSVal.obj [("type", .str "text"), ("content", .str "Hi")]] none "Hi"
     ⟨false, true,
      [.chunkEvent .roleDelta none, .chunkEvent (.contentDelta "Hi") none,
       .chunkEvent .emptyDelta (some "stop")]⟩ rfl).1,
   (claim_C2_single_terminal_delta
     [JSVal.obj [("type", .str "text"), ("content", .str "Hi")]] none "Hi"
     ⟨false, true,
      [.chunkEvent .roleDelta none, .chunkEvent (.contentDelta "Hi") none,
       .chunkEvent .emptyDelta (some "stop")]⟩ rfl).2.2⟩

theorem claim_C3_witness :
    processClaudeStream
        [JSVal.obj [("type", .str "text"), ("content", .str "Hi")]] none
        SR.fresh =
      .ok ("Hi",
        ⟨false, true,
         [.chunkEvent .roleDelta none, .chunkEvent (.contentDelta "Hi") none,
          .chunkEvent .emptyDelta (some "stop")]⟩) ∧
    "Hi" = contentConcat
      [SSEvent.chunkEvent .roleDelta none,
       .chunkEvent (.contentDelta "Hi") none,
       .chunkEvent .emptyDelta (some "stop")] :=
  ⟨rfl, claim_C3_accumulated_text.1
     [JSVal.obj [("type", .str "text"), ("content", .str "Hi")]] none "Hi"
     ⟨false, true,
      [.chunkEvent .roleDelta none, .chunkEvent (.contentDelta "Hi") none,
       .chunkEvent .emptyDelta (some "stop")]⟩ rfl⟩

theorem claim_C5_witness :
    processLoop (initState SR.fresh) [JSVal.obj [("content", JSVal.arr [])]] =
      .ok ({ roleSent := true, contentSent := false, assistantContent := "",
             chunkCount := 1,
             sr := ⟨false, true, [.chunkEvent .roleDelta none]⟩ }, false) ∧
    processClaudeStream [JSVal.obj [("content", JSVal.arr [])]] none SR.fresh =
      .ok (fallbackMessage,
        ⟨false, true,
         [.chunkEvent .roleDelta none,
          .chunkEvent (.contentDelta fallbackMessage) none,
          .chunkEvent .emptyDelta (some "stop")]⟩) := by
  refine ⟨rfl, ?_⟩
  have h := (claim_C5_fallback_message [JSVal.obj [("content", JSVal.arr [])]]
    { roleSent := true, contentSent := false, assistantContent := "",
      chunkCount := 1,
      sr := ⟨false, true, [.chunkEvent .roleDelta none]⟩ }
    rfl rfl rfl (by decide)).1
  simpa using h

end ClaudeProxy

namespace ClaudeProxy

/-- There is a position at which the collapse regex
`/\n\s*\n\s*\n/` matches: a newline whose whitespace run holds at least
three newlines. -/
def hasCollapsibleRun : List Char → Bool
  | [] => false
  | c :: cs =>
    (decide (c = '\n') &&
      decide (3 ≤ ((c :: cs).takeWhile wsChar).count '\n')) ||
    hasCollapsibleRun cs

theorem splitAtSub_eq_none (pat : List Char) (c : Char) (cs : List Char)
    (h : containsSub pat (c :: cs) = false) :
    pat.isPrefixOf (c :: cs) = false ∧ containsSub pat cs = false := by
  unfold containsSub at h
  unfold splitAtSub at h
  by_cases hp : pat.isPrefixOf (c :: cs) = true
  · rw [if_pos hp] at h
    simp at h
  · have hp' : pat.isPrefixOf (c :: cs) = false := by
      revert hp; cases pat.isPrefixOf (c :: cs) <;> simp
    rw [if_neg (by simp [hp'])] at h
    refine ⟨hp', ?_⟩
    unfold containsSub
    cases hx : splitAtSub pat cs
    · rfl
    · rw [hx] at h
      simp at h

theorem removeBlocksFuel_id (opTag closeTag : List Char) (n : Nat)
    (s : List Char) (h : containsSub opTag s = false) :
    removeBlocksFuel opTag closeTag n s = s := by
  cases n with
  | zero => rfl
  | succ m =>
    unfold removeBlocksFuel
    have hs : splitAtSub opTag s = none := by
      revert h; unfold containsSub; cases splitAtSub opTag s <;> simp
    rw [hs]

theorem removeBlocks_id (opTag closeTag : List Char) (s : List Char)
    (h : containsSub opTag s = false) :
    removeBlocks opTag closeTag s = s :=
  removeBlocksFuel_id opTag closeTag (s.length + 1) s h

theorem removeBracketedFuel_id (pat : List Char) (n : Nat) :
    ∀ s : List Char, containsSub pat s = false →
      removeBracketedFuel pat n s = s := by
  induction n with
  | zero => intro s h; rfl
  | succ m ih =>
    intro s h
    cases s with
    | nil => rfl
    | cons c cs =>
      obtain ⟨hp, htl⟩ := splitAtSub_eq_none pat c cs h
      unfold removeBracketedFuel
      rw [if_neg (by simp [hp])]
      rw [ih cs htl]

theorem removeBracketed_id (pat : List Char) (s : List Char)
    (h : containsSub pat s = false) : removeBracketed pat s = s :=
  removeBracketedFuel_id pat (s.length + 1) s h

theorem collapseRunsFuel_id (n : Nat) :
    ∀ s : List Char, hasCollapsibleRun s = false →
      collapseRunsFuel n s = s := by
  induction n with
  | zero => intro s h; rfl
  | succ m ih =>
    intro s h
    cases s with
    | nil => rfl
    | cons c cs =>
      unfold hasCollapsibleRun at h
      rw [Bool.or_eq_false_iff] at h
      unfold collapseRunsFuel
      rw [if_neg (by
        intro hcond
        rcases hcond with ⟨hceq, hcount⟩
        subst hceq
        rw [Bool.and_eq_false_iff] at h
        rcases h.1 with h1 | h1
        · simp at h1
        · simp at h1
          omega)]
      rw [ih cs h.2]

theorem collapseRuns_id (s : List Char)
    (h : hasCollapsibleRun s = false) : collapseRuns s = s :=
  collapseRunsFuel_id (s.length + 1) s h

/-- C4 counterexample: filterContent, as implemented, is neither
idempotent nor a no-op on marker-free text.  Removing the bracketed
`[Tool Use: a]` from `[Tool [Tool Use: a]Use: b]` splices together a new
`[Tool Use: b]` marker that only a second application removes, so
`filter(filter(x))` differs from `filter(x)`; and the string of three
newlines contains none of the markers yet is collapsed and trimmed to the
empty string. -/
theorem claim_C4_counterexample :
    (filterContentStr (filterContentStr "[Tool [Tool Use: a]Use: b]") ≠
       filterContentStr "[Tool [Tool Use: a]Use: b]") ∧
    (containsSub fcOpenTag ("\n\n\n").toList = false ∧
     containsSub thinkOpenTag ("\n\n\n").toList = false ∧
     containsSub toolUsePat ("\n\n\n").toList = false ∧
     containsSub filePat ("\n\n\n").toList = false ∧
     filterContentStr "\n\n\n" ≠ "\n\n\n") := by
  refine ⟨by decide, by decide, by decide, by decide, by decide, by decide⟩

/-- C4 amended: filterContent is unchanged (and hence trivially
idempotent) on every string that contains none of the four marker-opening
substrings, has no whitespace run with three or more newlines, and is
already trimmed; the unrestricted idempotence and no-op properties of the
original claim fail (see the counterexample). -/
theorem claim_C4_amended_filter_fixpoint (x : String)
    (h1 : containsSub fcOpenTag x.toList = false)
    (h2 : containsSub thinkOpenTag x.toList = false)
    (h3 : containsSub toolUsePat x.toList = false)
    (h4 : containsSub filePat x.toList = false)
    (h5 : hasCollapsibleRun x.toList = false)
    (h6 : jsTrim x = x) :
    filterContentStr x = x ∧
    filterContentStr (filterContentStr x) = filterContentStr x := by
  have hfix : filterContentStr x = x := by
    unfold filterContentStr
    split
    · rfl
    · simp only [removeBlocks_id _ _ _ h1, removeBlocks_id _ _ _ h2,
        removeBracketed_id _ _ h3, removeBracketed_id _ _ h4,
        collapseRuns_id _ h5]
      exact h6
  exact ⟨hfix, by rw [hfix, hfix]⟩

theorem claim_C4_witness :
    (containsSub fcOpenTag ("hello\n\nworld").toList = false ∧
     containsSub thinkOpenTag ("hello\n\nworld").toList = false ∧
     containsSub toolUsePat ("hello\n\nworld").toList = false ∧
     containsSub filePat ("hello\n\nworld").toList = false ∧
     hasCollapsibleRun ("hello\n\nworld").toList = false ∧
     jsTrim "hello\n\nworld" = "hello\n\nworld") ∧
    filterContentStr "hello\n\nworld" = "hello\n\nworld" :=
  ⟨⟨by decide, by decide, by decide, by decide, by decide, by decide⟩,
   (claim_C4_amended_filter_fixpoint "hello\n\nworld" (by decide) (by decide)
     (by decide) (by decide) (by decide) (by decide)).1⟩

end ClaudeProxy

namespace ClaudeProxy

/-- C7 counterexample: the source appends a block's `.content` through
JavaScript string coercion instead of recursing.  The claim's recursion
clause forces `extractContent [⟨content: [⟨text: "Hi"⟩]⟩]` to equal the
extraction of the inner block list, `"Hi"`; the code instead coerces the
inner array, producing `[object Object]`. -/
theorem claim_C7_counterexample :
    extractContent (.arr [.obj [("content",
        JSVal.arr [.obj [("text", .str "Hi")]])]]) = "[object Object]" ∧
    extractContent (.arr [.obj [("text", .str "Hi")]]) = "Hi" ∧
    extractContent (.arr [.obj [("content",
        JSVal.arr [.obj [("text", .str "Hi")]])]]) ≠
      extractContent (.arr [.obj [("text", .str "Hi")]]) := by
  have hc1 : jsCoerce (JSVal.arr [.obj [("text", .str "Hi")]]) =
      "[object Object]" := by
    simp [jsCoerce, isNullish, joinComma]
  have hc2 : jsCoerce (JSVal.str "Hi") = "Hi" := by
    simp [jsCoerce]
  have hA : extractContent (.arr [.obj [("content",
      JSVal.arr [.obj [("text", .str "Hi")]])]]) = "[object Object]" := by
    simp [extractContent, blockText, fieldTruthy, getField, typeEq, truthy,
      List.lookup, hc1]
  have hB : extractContent (.arr [.obj [("text", .str "Hi")]]) = "Hi" := by
    simp [extractContent, blockText, fieldTruthy, getField, typeEq, truthy,
      List.lookup, hc2]
  refine ⟨hA, hB, ?_⟩
  rw [hA, hB]
  decide

def joinStrings : List String → String
  | [] => ""
  | s :: rest => s ++ joinStrings rest

/-- Modelled from the amended claim's words (C7): the result is the
in-order concatenation over blocks of: the block verbatim when it is a
bare string; else, for object or array blocks, the string coercion of the
`.text` field when truthy, else the string coercion of the `.content`
field when truthy (no recursion), else nothing; other block shapes
contribute nothing; non-list non-string inputs give the empty string. -/
def amendedBlockText (b : JSVal) : String :=
  match b with
  | .str s => s
  | .arr _ =>
    if fieldTruthy b "text" then jsCoerce ((getField b "text").getD .undef)
    else if fieldTruthy b "content" then
      jsCoerce ((getField b "content").getD .undef)
    else ""
  | .obj _ =>
    if fieldTruthy b "text" then jsCoerce ((getField b "text").getD .undef)
    else if fieldTruthy b "content" then
      jsCoerce ((getField b "content").getD .undef)
    else ""
  | _ => ""

def extractContentAmendedSpec : JSVal → String
  | .str s => s
  | .arr blocks => joinStrings (blocks.map amendedBlockText)
  | _ => ""

theorem blockText_eq_amended (b : JSVal) :
    blockText b = amendedBlockText b := by
  cases b <;> simp [blockText, amendedBlockText]
  case arr xs =>
    by_cases ht : fieldTruthy (JSVal.arr xs) "text" = true
    · simp [ht]
    · have ht' : fieldTruthy (JSVal.arr xs) "text" = false := by
        revert ht; cases fieldTruthy (JSVal.arr xs) "text" <;> simp
      simp [ht']
  case obj fs =>
    by_cases ht : fieldTruthy (JSVal.obj fs) "text" = true
    · simp [ht]
    · have ht' : fieldTruthy (JSVal.obj fs) "text" = false := by
        revert ht; cases fieldTruthy (JSVal.obj fs) "text" <;> simp
      simp [ht']

/-- C7 amended: extractContent equals the specification that appends the
`.text` or `.content` field through JavaScript string coercion with no
recursive extraction (the original claim's recursion clause fails, see the
counterexample). -/
theorem claim_C7_amended_extract (v : JSVal) :
    extractContent v = extractContentAmendedSpec v := by
  cases v <;> simp [extractContent, extractContentAmendedSpec]
  case arr blocks =>
    have key : ∀ acc : String,
        blocks.foldl (fun acc b => acc ++ blockText b) acc =
          acc ++ joinStrings (blocks.map amendedBlockText) := by
      induction blocks with
      | nil => intro acc; simp [joinStrings]
      | cons b bs ih =>
        intro acc
        simp [List.foldl_cons, joinStrings, ih, blockText_eq_amended b,
          String.append_assoc]
    have h := key ""
    simpa using h

end ClaudeProxy

namespace ClaudeProxy

theorem blockIsToolUseE_ok (b : JSVal) (h1 : b ≠ JSVal.null)
    (h2 : b ≠ JSVal.undef) :
    blockIsToolUseE b = .ok (isToolUseBlock b) := by
  cases b <;> simp_all [blockIsToolUseE]

theorem filterToolUseE_ok (blocks : List JSVal)
    (h : ∀ b ∈ blocks, b ≠ JSVal.null ∧ b ≠ JSVal.undef) :
    filterToolUseE blocks =
      .ok (blocks.filter (fun b => isToolUseBlock b)) := by
  induction blocks with
  | nil => rfl
  | cons b bs ih =>
    have hb := h b (by simp)
    unfold filterToolUseE
    rw [blockIsToolUseE_ok b hb.1 hb.2,
      ih (fun x hx => h x (by simp [hx]))]
    by_cases ht : isToolUseBlock b = true
    · simp [List.filter_cons, ht]
    · have ht' : isToolUseBlock b = false := by
        revert ht; cases isToolUseBlock b <;> simp
      simp [List.filter_cons, ht']

theorem parseToolCalls_converts (blocks : List JSVal)
    (hnn : ∀ b ∈ blocks, b ≠ JSVal.null ∧ b ≠ JSVal.undef)
    (hsome : blocks.filter (fun b => isToolUseBlock b) ≠ []) :
    parseToolCallsE (.obj [("content", .arr blocks)]) =
      .ok (.toolCallsChunk (.arr
        ((blocks.filter (fun b => isToolUseBlock b)).map
          convertToolUseBlock))) := by
  have hft : fieldTruthy (JSVal.obj [("content", JSVal.arr blocks)])
      "tool_calls" = false := by
    simp [fieldTruthy, getField, List.lookup]
  have hgc : getField (JSVal.obj [("content", JSVal.arr blocks)]) "content" =
      some (.arr blocks) := by
    simp [getField, List.lookup]
  have hlen : jsLengthGtZero (JSVal.arr
      ((blocks.filter (fun b => isToolUseBlock b)).map
        convertToolUseBlock)) = true := by
    simp [jsLengthGtZero, List.length_pos]
    simpa using hsome
  unfold parseToolCallsE
  rw [if_neg (by simp [hft]), hgc]
  simp [filterToolUseE_ok blocks hnn, hlen]

/-- C8: an assistant-typed envelope whose message content block list
contains a tool_use block is normalized to a tool-calls chunk holding all
tool_use blocks of the list converted to
`{id: block.id or the generated id, type: "function",
function: {name: block.name, arguments: JSON.stringify(block.input || {})}}`
(cf. convertToolUseBlock), and no assistant-text chunk is produced from
that envelope.  The list's entries are required to be actual blocks (not
`null`/`undefined`, whose property access would throw). -/
theorem claim_C8_tool_use_conversion (env msg : JSVal) (blocks : List JSVal)
    (htype : getField env "type" = some (.str "assistant"))
    (hmsg : getField env "message" = some msg)
    (hmt : truthy msg = true)
    (hcontent : getField msg "content" = some (.arr blocks))
    (hnn : ∀ b ∈ blocks, b ≠ JSVal.null ∧ b ≠ JSVal.undef)
    (hsome : blocks.filter (fun b => isToolUseBlock b) ≠ []) :
    normalizeClaudeChunkE env =
      .ok (.toolCallsChunk (.arr
        ((blocks.filter (fun b => isToolUseBlock b)).map
          convertToolUseBlock))) := by
  have hobj : ∃ fields, env = JSVal.obj fields := by
    cases env
    case obj fields => exact ⟨fields, rfl⟩
    all_goals simp [getField] at htype
  obtain ⟨fields, rfl⟩ := hobj
  have hsys : (typeEq (JSVal.obj fields) "system" ||
      typeEq (JSVal.obj fields) "result" ||
      typeEq (JSVal.obj fields) "user") = false := by
    simp [typeEq, htype]
  have hcond : (typeEq (JSVal.obj fields) "assistant" &&
      fieldTruthy (JSVal.obj fields) "message") = true := by
    simp [typeEq, htype, fieldTruthy, hmsg, hmt]
  have hmget : (getField (JSVal.obj fields) "message").getD .undef = msg := by
    rw [hmsg]
    rfl
  have hlen : 0 < (blocks.filter (fun b => isToolUseBlock b)).length :=
    List.length_pos.mpr hsome
  have hae : assistantEnvelopeE (JSVal.obj fields) =
      .ok (some (.toolCallsChunk (.arr
        ((blocks.filter (fun b => isToolUseBlock b)).map
          convertToolUseBlock)))) := by
    unfold assistantEnvelopeE
    rw [if_pos hcond, hmget, hcontent]
    simp [filterToolUseE_ok blocks hnn, hlen,
      parseToolCalls_converts blocks hnn hsome]
  unfold normalizeClaudeChunkE
  simp only [hsys, hae, Bool.false_eq_true, if_false]

theorem claim_C8_witness :
    normalizeClaudeChunkE (.obj
      [("type", .str "assistant"),
       ("message", .obj [("content", JSVal.arr
         [.obj [("type", .str "tool_use"), ("id", .str "t1"),
                ("name", .str "get_weather"),
                ("input", .obj [("city", .str "Paris")])]])])]) =
      .ok (.toolCallsChunk (.arr
        (([(JSVal.obj [("type", .str "tool_use"), ("id", .str "t1"),
            ("name", .str "get_weather"),
            ("input", .obj [("city", .str "Paris")])])].filter
              (fun b => isToolUseBlock b)).map convertToolUseBlock))) ∧
    ([(JSVal.obj [("type", .str "tool_use"), ("id", .str "t1"),
        ("name", .str "get_weather"),
        ("input", .obj [("city", .str "Paris")])])].filter
          (fun b => isToolUseBlock b)).map convertToolUseBlock =
      [JSVal.obj [("id", .str "t1"), ("type", .str "function"),
        ("function", .obj
          [("name", .str "get_weather"),
           ("arguments", .str "\x7b\"city\":\"Paris\"\x7d")])]] := by
  constructor
  · exact claim_C8_tool_use_conversion _ _ _ rfl rfl rfl rfl
      (by intro b hb; simp at hb; subst hb; simp)
      (by simp [isToolUseBlock, typeEq, getField, List.lookup])
  · have hq : jsonStringify (JSVal.obj [("city", .str "Paris")]) =
        "\x7b\"city\":\"Paris\"\x7d" := by
      simp [jsonStringify, isUndef, joinComma, jsonQuote, jsonEscapeChar]
      decide
    simp [convertToolUseBlock, isToolUseBlock, typeEq, getField, List.lookup,
      fieldTruthy, truthy, hq]

end ClaudeProxy
